import Mathlib

/-!
Verification of the mresource file-based resource key allocator
(`src/mresource_actions.c`, with `src/mresource.c` for the CLI wrapper).

The resource file is a byte stream read with `fgets`, one record per line.
We model it as a list of raw lines (`Line := List Char`): each element is
exactly one chunk returned by `fgets`, i.e. the characters of the line
*including* the trailing `'\n'` when present.  Only the final chunk of a
real stream can lack the `'\n'` terminator (that is the case where `fgets`
hits end-of-file mid-line and sets the stream's EOF indicator).  The
`fgets` 1024-byte cap is not modelled: the spec declares longer lines a
configuration error and no claim involves them.

I/O (verbose logging to stderr, the obtained key printed to stdout) is
modelled by returning the printed text; `fopen` success/failure is an
explicit boolean (per open attempt, a `Nat → Bool` schedule when the loop
re-opens); `fcntl` file locks and `fork`/`waitpid` daemonization are
modelled by their sequential effect, as no claim here is about concurrent
interleavings.
-/

namespace MResource

/-- Error codes, from `enum ExitCodes` in `mresource_actions.h`. -/
def NO_ERROR : Nat := 0
def FILE_NOT_OPEN : Nat := 1
def NOT_FOUND : Nat := 2
def ARGUMENT_ERROR : Nat := 3
def TIME_OUT : Nat := 4

/-- `INT_MAX` on the target platform (32-bit `int`). -/
def INT_MAX : Nat := 2147483647

/-- `SIGNAL_CHAR`: initial character on a line if the key is in use. -/
def SIGNAL_CHAR : Char := '!'

/-- `DESIGNAL_CHAR`: initial character on a line if the key is unused. -/
def DESIGNAL_CHAR : Char := ' '

/-- One `fgets` chunk: the raw characters of a line, including the
trailing newline when the line has one. -/
abbrev Line := List Char

/-- A resource file: the sequence of `fgets` chunks of its byte stream. -/
abbrev RFile := List Line

/-- Does this raw line end in a newline?  A chunk without one is the final
chunk of the stream, read while hitting end-of-file (so `feof` is set). -/
def endsNL (l : Line) : Bool := l.getLast? = some '\n'

/-- `line[0]`.  `fgets` only produces nonempty chunks; the default `'\x00'`
is the NUL a C string presents when the buffer holds the empty string. -/
def headChar (l : Line) : Char := l.headD '\x00'

/-- The newline stripping in `release_resource`:
`if (strlen(line) > 0 && line[strlen(line)-1] == '\n') line[strlen(line)-1]='\0';` -/
def stripNL (l : Line) : Line := if endsNL l then l.dropLast else l

/-- The key text carried by a record line: everything after the status
byte, with the line terminator removed (`line+1` after stripping). -/
def chunkKey (c : Line) : Line := (stripNL c).tail

/-- The scan loop of `obtain_resource`:
```
do { file_pointer = ftell(file);
     checkline = fgets(line, sizeof(line), file);
} while (checkline != NULL && !feof(file) && line[0] == SIGNAL_CHAR);
if (feof(file)) { ...no key... } else { ...flip record at file_pointer... }
```
Returns the index of the matched line and the line itself, or `none` for
the `feof` exit (no chunk left, or the final chunk was read while hitting
EOF because it lacks a terminator).  Note the match condition: *any* first
character other than `SIGNAL_CHAR` exits the loop into the success branch. -/
def scanObtain : RFile → Option (Nat × Line)
  | [] => none
  | c :: rest =>
    if rest = [] ∧ ¬ endsNL c then none
    else if headChar c = SIGNAL_CHAR then
      (scanObtain rest).map (fun p => (p.1 + 1, p.2))
    else some (0, c)

/-- The scan loop of `release_resource` for one key:
```
do { file_pointer = ftell(file);
     checkline = fgets(line, sizeof(line), file);
     /* strip trailing newline */
} while (checkline != NULL && !feof(file) &&
         (strcmp(line+1, keys[i]) != 0 || strncmp(line, SIGNAL_CHAR_STR, 1) != 0));
if (feof(file)) { exitcode |= NOT_FOUND; } else { ...flip to DESIGNAL_CHAR... }
```
Returns the index of the first record that is Reserved (`line[0] == '!'`
after stripping) with matching key text, or `none` for the `feof` exit. -/
def scanRelease (key : Line) : RFile → Option Nat
  | [] => none
  | c :: rest =>
    if rest = [] ∧ ¬ endsNL c then none
    else if headChar (stripNL c) = SIGNAL_CHAR ∧ (stripNL c).tail = key then some 0
    else (scanRelease key rest).map (fun i => i + 1)

/-- `fseek(file, file_pointer, SEEK_SET); fprintf(file, "%c", ch);` —
overwrite the status byte of record `i` in place. -/
def flipAt (file : RFile) (i : Nat) (ch : Char) : RFile :=
  file.set i (ch :: (file.getD i []).tail)

/-- `max_retries = timeout?((timeout+polltime-1)/polltime):INT_MAX;`
(`obtain_resource`, `mresource_actions.c` line 79).  A zero timeout
selects an `INT_MAX` retry budget, i.e. it means "no timeout". -/
def max_retries (timeout polltime : Nat) : Nat :=
  if timeout = 0 then INT_MAX else (timeout + polltime - 1) / polltime

/-- Outcome of one single-key run of the `obtain_resource` polling loop:
exit code, resulting file, the text printed to stdout (`line + 1`,
newline included) if a key was obtained, the number of open-and-scan
attempts made, and the total seconds slept. -/
structure ObtainResult where
  code : Nat
  file : RFile
  output : Option Line
  attempts : Nat
  slept : Nat
deriving Repr, DecidableEq

/-- The single-key polling loop of `obtain_resource`, in the case where
every `fopen` succeeds.  `retriesLeft` is `max_retries - retry_count`
(the loop counts `retry_count` up to `max_retries`; we count the
remaining budget down, which is the same loop).  Each iteration opens and
scans the file; on `feof` with budget remaining it sleeps `polltime`
seconds and retries, on `feof` with the budget exhausted it exits with
`TIME_OUT`, and on a match it flips the record to `SIGNAL_CHAR` in place
and prints `line + 1`.  The file is not mutated by a failed scan, so
re-reading it on the next attempt scans the same content. -/
def obtain_avail (file : RFile) (retriesLeft polltime : Nat) : ObtainResult :=
  match scanObtain file with
  | some (i, line) =>
    { code := NO_ERROR, file := flipAt file i SIGNAL_CHAR
      output := some line.tail, attempts := 1, slept := 0 }
  | none =>
    match retriesLeft with
    | 0 => { code := TIME_OUT, file := file, output := none, attempts := 1, slept := 0 }
    | r + 1 =>
      let res := obtain_avail file r polltime
      { res with attempts := res.attempts + 1, slept := res.slept + polltime }

/-- Result of a full `obtain_resource` call (`nkeys` keys requested):
exit code, final file, the printed key texts in order, and the per-key
attempt counts for the keys that were tried. -/
structure MultiObtainResult where
  code : Nat
  file : RFile
  outputs : List Line
  attempts : List Nat
deriving Repr, DecidableEq

/-- The outer loop of `obtain_resource`:
`for (int i = 0; i < nkeys && exitcode == 0; i++) { ...polling loop... }`. -/
def obtain_go (maxrep polltime : Nat) : RFile → Nat → MultiObtainResult
  | file, 0 => { code := NO_ERROR, file := file, outputs := [], attempts := [] }
  | file, n + 1 =>
    let r := obtain_avail file maxrep polltime
    if r.code = NO_ERROR then
      let rest := obtain_go maxrep polltime r.file n
      { code := rest.code, file := rest.file
        outputs := r.output.toList ++ rest.outputs
        attempts := r.attempts :: rest.attempts }
    else
      { code := r.code, file := r.file, outputs := [], attempts := [r.attempts] }

/-- `obtain_resource(filename, nkeys, timeout, polltime, verbose)` with
every `fopen` succeeding. -/
def obtain_resource (file : RFile) (nkeys timeout polltime : Nat) : MultiObtainResult :=
  obtain_go (max_retries timeout polltime) polltime file nkeys

/-- The state of the `obtain_resource` polling loop between iterations,
used to model the loop faithfully when `fopen` can fail mid-polling.
`rep` is the `retry_count` variable, `repeatFlag` the `repeat` variable
(note: the `fopen`-failure branch leaves `repeat` untouched), `attempt`
the number of `fopen` calls made so far, `slept` the seconds slept. -/
structure ObtainState where
  file : RFile
  rep : Nat
  repeatFlag : Bool
  attempt : Nat
  slept : Nat
deriving Repr, DecidableEq

/-- One iteration of the loop either terminates the loop (`done`, with the
exit code and printed text) or continues (`next`). -/
inductive ObtainStep where
  | done : Nat → ObtainState → Option Line → ObtainStep
  | next : ObtainState → ObtainStep
deriving Repr, DecidableEq

/-- One iteration of the `do { ... } while (repeat);` loop of
`obtain_resource` (`mresource_actions.c` lines 104-143).  `openok k` tells
whether the `k`-th `fopen` call succeeds.  The loop exits after the body
iff `repeat` is false there; crucially, the `fopen`-failure branch sets
`exitcode = FILE_NOT_OPEN` but does not touch `repeat`, so the loop exits
only if no retry had been scheduled by an earlier iteration. -/
def obtain_iter (openok : Nat → Bool) (polltime maxrep : Nat) (s : ObtainState) :
    ObtainStep :=
  if openok s.attempt then
    match scanObtain s.file with
    | some (i, line) =>
      .done NO_ERROR
        { s with file := flipAt s.file i SIGNAL_CHAR, repeatFlag := false
                 attempt := s.attempt + 1 }
        (some line.tail)
    | none =>
      if s.rep < maxrep then
        .next { s with rep := s.rep + 1, repeatFlag := true
                       attempt := s.attempt + 1, slept := s.slept + polltime }
      else
        .done TIME_OUT { s with repeatFlag := false, attempt := s.attempt + 1 } none
  else
    if s.repeatFlag then .next { s with attempt := s.attempt + 1 }
    else .done FILE_NOT_OPEN { s with attempt := s.attempt + 1 } none

/-- Run the polling loop for at most `fuel` iterations; `none` means the
loop was still running after `fuel` iterations. -/
def obtain_run (openok : Nat → Bool) (polltime maxrep : Nat) :
    Nat → ObtainState → Option (Nat × ObtainState × Option Line)
  | 0, _ => none
  | fuel + 1, s =>
    match obtain_iter openok polltime maxrep s with
    | .done code s' out => some (code, s', out)
    | .next s' => obtain_run openok polltime maxrep fuel s'

/-- The initial loop state for one key: `retry_count = 0`, `repeat = false`,
no open attempted yet, nothing slept. -/
def obtain_init (file : RFile) : ObtainState :=
  { file := file, rep := 0, repeatFlag := false, attempt := 0, slept := 0 }

/-- The per-key loop of `release_resource` (`mresource_actions.c` lines
240-268): for each key in order, scan from the start of the (current)
file for the first Reserved record with that key text; flip it to
`DESIGNAL_CHAR` if found, otherwise `exitcode |= NOT_FOUND`; in both
cases continue with the remaining keys.  The accumulated
`exitcode |= x_1 |= ... |= x_n` starting from `NO_ERROR = 0` equals the
right-nested `x_1 ||| (x_2 ||| ... ||| 0)` computed here, since `|||` is
associative and commutative with identity 0. -/
def release_keys : RFile → List Line → RFile × Nat
  | file, [] => (file, NO_ERROR)
  | file, k :: ks =>
    match scanRelease k file with
    | none =>
      ((release_keys file ks).1, NOT_FOUND ||| (release_keys file ks).2)
    | some i =>
      ((release_keys (flipAt file i DESIGNAL_CHAR) ks).1,
        NO_ERROR ||| (release_keys (flipAt file i DESIGNAL_CHAR) ks).2)

/-- What a full `release_resource` call looks like from outside:
the exit code the original caller sees, how many seconds the caller
waited before getting it, whether a detached daemon process was spawned,
the file content once all (possibly deferred) work is done, and the exit
code of the deferred worker (observable by nobody), if any. -/
structure ReleaseResult where
  caller : Nat
  callerWait : Nat
  detached : Bool
  file : RFile
  deferredCode : Option Nat
deriving Repr, DecidableEq

/-- `release_resource(filename, nkeys, keys, delay, verbose)`
(`mresource_actions.c` lines 159-281).  `openPre` is the success of the
precondition-check `fopen` (lines 189-194), `openMain` the success of the
`fopen` performed by whichever process does the actual scan (line 228).
With `delay > 0` the call double-forks: the original caller returns
`NO_ERROR` as soon as `waitpid` on the short-lived first child returns,
and the detached grandchild sleeps `delay` seconds and performs the
locked scan on its own; its exit code goes nowhere.  With `delay == 0`
the caller itself sleeps `sleep(0)` and performs the scan. -/
def release_resource (openPre openMain : Bool) (file : RFile) (keys : List Line)
    (delay : Nat) : ReleaseResult :=
  if openPre = false then
    { caller := FILE_NOT_OPEN, callerWait := 0, detached := false
      file := file, deferredCode := none }
  else if 0 < delay then
    let d := if openMain then release_keys file keys else (file, FILE_NOT_OPEN)
    { caller := NO_ERROR, callerWait := 0, detached := true
      file := d.1, deferredCode := some d.2 }
  else
    let d := if openMain then release_keys file keys else (file, FILE_NOT_OPEN)
    { caller := d.2, callerWait := delay, detached := false
      file := d.1, deferredCode := none }

/-- One record as written by `create_resource_file` and
`append_resource_file`: `fprintf(f, "%c%s\n", DESIGNAL_CHAR, argv[i])`. -/
def mk_record (key : Line) : Line := DESIGNAL_CHAR :: (key ++ ['\n'])

/-- `create_resource_file`: truncate-or-create and write one Free record
per key, in order. -/
def create_resource_file (keys : List Line) : RFile := keys.map mk_record

/-- The `while (1)` loop of `append_resource_file` (`mresource_actions.c`
lines 347-372), run for at most `fuel` iterations: each iteration tries
`fopen(filename, "a")`; on success it appends one Free record per key
under the lock, sets `NO_ERROR` and breaks; on failure it sets
`exitcode = FILE_NOT_OPEN` and — with no `break` — goes straight back to
`fopen`.  `none` means the loop was still running after `fuel`
iterations. -/
def append_loop (openok : Nat → Bool) (file : RFile) (keys : List Line) :
    Nat → Nat → Option (Nat × RFile)
  | 0, _ => none
  | fuel + 1, attempt =>
    if openok attempt then some (NO_ERROR, file ++ keys.map mk_record)
    else append_loop openok file keys fuel (attempt + 1)

/-- `append_resource_file(filename, argc, argv, verbose)` with an open
schedule and a fuel bound on the retry loop. -/
def append_resource_file (openok : Nat → Bool) (file : RFile) (keys : List Line)
    (fuel : Nat) : Option (Nat × RFile) :=
  append_loop openok file keys fuel 0

/-- Obtain one key (which succeeds on the first scan whenever a record is
available, making the retry budget irrelevant) and, if a key was printed,
release exactly that key text (the printed line minus its terminator,
which is what a caller passes back) with `delay = 0`.  This is the
round-trip cycle of the spec's algebraic property. -/
def obtain_release_cycle (file : RFile) (polltime : Nat) : RFile :=
  let r := obtain_avail file 0 polltime
  match r.output with
  | some out => (release_keys r.file [stripNL out]).1
  | none => r.file

/-- Did each key of the list get found (sequentially, on the file as
updated by the preceding keys)?  This is the success predicate the
release exit code reports. -/
def all_found : RFile → List Line → Bool
  | _, [] => true
  | file, k :: ks =>
    match scanRelease k file with
    | none => false
    | some i => all_found (flipAt file i DESIGNAL_CHAR) ks

/-- Is record `c` a Reserved record carrying key text `k` (the match
condition of the release scan)? -/
def isReservedFor (k c : Line) : Bool :=
  decide (headChar (stripNL c) = SIGNAL_CHAR ∧ (stripNL c).tail = k)

/-- Number of Reserved records with key text `k` in the file. -/
def count_matching (file : RFile) (k : Line) : Nat :=
  file.countP (isReservedFor k)

/-- Modelled from the claim (C10): flip the first `n` Reserved records
carrying key `k`, in file order, to Free. -/
def spec_flip_n : RFile → Line → Nat → RFile
  | [], _, _ => []
  | c :: rest, k, n =>
    if n ≠ 0 ∧ isReservedFor k c = true then
      (DESIGNAL_CHAR :: c.tail) :: spec_flip_n rest k (n - 1)
    else c :: spec_flip_n rest k n

/-- Well-formed resource file: every line has a status byte plus at least
a terminator (length ≥ 2) and ends in a newline.  This is the shape
`create_resource_file`/`append_resource_file` produce. -/
def RecordFile (file : RFile) : Prop :=
  ∀ c ∈ file, 2 ≤ c.length ∧ endsNL c = true

instance : DecidablePred RecordFile := fun file =>
  inferInstanceAs (Decidable (∀ c ∈ file, 2 ≤ c.length ∧ endsNL c = true))

example : scanObtain [[' ', 'a', '\n']] = some (0, [' ', 'a', '\n']) := by decide
example : scanObtain [['!', 'a', '\n']] = none := by decide
example : scanObtain [[' ', 'a']] = none := by decide
example : scanRelease ['a'] [['!', 'a', '\n']] = some 0 := by decide
example : scanRelease ['a'] [['!', 'a']] = none := by decide
example : max_retries 3 2 = 2 := by decide
example : obtain_avail [['!', 'a', '\n']] (max_retries 3 2) 2 =
    { code := TIME_OUT, file := [['!', 'a', '\n']], output := none,
      attempts := 3, slept := 4 } := by decide
example : release_keys [['!', 'a', '\n'], ['!', 'a', '\n']] [['a'], ['a']] =
    ([[' ', 'a', '\n'], [' ', 'a', '\n']], 0) := by decide
example : release_keys [['!', 'a', '\n']] [['b'], ['a']] =
    ([[' ', 'a', '\n']], NOT_FOUND) := by decide
example : obtain_release_cycle [['!', 'a', '\n'], [' ', 'a', '\n']] 2 =
    [[' ', 'a', '\n'], ['!', 'a', '\n']] := by decide
example : obtain_release_cycle [[' ', 'a', '\n'], [' ', 'b', '\n']] 2 =
    [[' ', 'a', '\n'], [' ', 'b', '\n']] := by decide
example : obtain_run (fun k => k == 0) 2 (max_retries 3 2) 100
    (obtain_init [['!', 'a', '\n']]) = none := by decide
example : append_loop (fun _ => false) [] [['a']] 30 0 = none := by decide
example : spec_flip_n [['!', 'a', '\n'], ['!', 'b', '\n'], ['!', 'a', '\n']] ['a'] 2 =
    [[' ', 'a', '\n'], ['!', 'b', '\n'], [' ', 'a', '\n']] := by decide

/-! ### Generic list helpers -/

theorem list_set_self {α : Type} :
    ∀ (l : List α) (i : Nat) (x : α), l[i]? = some x → l.set i x = l
  | [], i, x, h => by simp at h
  | a :: l, 0, x, h => by
    simp only [List.getElem?_cons_zero, Option.some.injEq] at h
    simp [h]
  | a :: l, i + 1, x, h => by
    simp only [List.getElem?_cons_succ] at h
    simp [list_set_self l i x h]

/-! ### The obtain polling loop (all opens succeeding) -/

theorem obtain_avail_success {file : RFile} {i : Nat} {line : Line}
    (h : scanObtain file = some (i, line)) (r p : Nat) :
    obtain_avail file r p =
      { code := NO_ERROR, file := flipAt file i SIGNAL_CHAR
        output := some line.tail, attempts := 1, slept := 0 } := by
  cases r <;> simp [obtain_avail, h]

theorem obtain_avail_nofree {file : RFile} (h : scanObtain file = none) :
    ∀ (r p : Nat), obtain_avail file r p =
      { code := TIME_OUT, file := file, output := none
        attempts := r + 1, slept := p * r }
  | 0, p => by simp [obtain_avail, h]
  | r + 1, p => by
    simp [obtain_avail, h, obtain_avail_nofree h r p, Nat.mul_succ]

theorem obtain_avail_attempts_le (file : RFile) (r p : Nat) :
    (obtain_avail file r p).attempts ≤ r + 1 := by
  cases h : scanObtain file with
  | some v =>
    obtain ⟨i, line⟩ := v
    rw [obtain_avail_success h]
    exact Nat.le_add_left 1 r
  | none => rw [obtain_avail_nofree h]

/-! ### Soundness of the two scans -/

theorem scanObtain_sound : ∀ (file : RFile) (i : Nat) (c : Line),
    scanObtain file = some (i, c) →
    file[i]? = some c ∧ headChar c ≠ SIGNAL_CHAR ∧
      (endsNL c = true ∨ i + 1 < file.length) ∧
      (∀ j, j < i → ∃ cj, file[j]? = some cj ∧ headChar cj = SIGNAL_CHAR)
  | [], i, c, h => by simp [scanObtain] at h
  | d :: rest, i, c, h => by
    rw [scanObtain] at h
    split at h
    · exact absurd h (by simp)
    · rename_i hfeof
      split at h
      · rename_i hsig
        rw [Option.map_eq_some'] at h
        obtain ⟨⟨i', c'⟩, hin, heq⟩ := h
        injection heq with h1 h2
        subst h1; subst h2
        obtain ⟨h1, h2, h3, h4⟩ := scanObtain_sound rest i' c' hin
        refine ⟨by simpa using h1, h2, ?_, ?_⟩
        · rcases h3 with h3 | h3
          · exact Or.inl h3
          · exact Or.inr (by simpa using Nat.succ_lt_succ h3)
        · intro j hj
          match j with
          | 0 => exact ⟨d, by simp, hsig⟩
          | j + 1 =>
            obtain ⟨cj, hcj1, hcj2⟩ := h4 j (by omega)
            exact ⟨cj, by simpa using hcj1, hcj2⟩
      · rename_i hsig
        injection h with h1
        injection h1 with h2 h3
        subst h3
        cases h2
        refine ⟨by simp, hsig, ?_, by omega⟩
        rcases not_and_or.mp hfeof with hr | hr
        · exact Or.inr (by
            have : rest ≠ [] := hr
            have : 0 < rest.length := List.length_pos.mpr this
            simpa using Nat.succ_lt_succ this)
        · exact Or.inl (by simpa using not_not.mp hr)

theorem scanRelease_sound : ∀ (k : Line) (file : RFile) (i : Nat),
    scanRelease k file = some i →
    ∃ c, file[i]? = some c ∧ headChar (stripNL c) = SIGNAL_CHAR ∧
      (stripNL c).tail = k ∧
      ∀ j, j < i → ∀ cj, file[j]? = some cj →
        ¬(headChar (stripNL cj) = SIGNAL_CHAR ∧ (stripNL cj).tail = k)
  | k, [], i, h => by simp [scanRelease] at h
  | k, d :: rest, i, h => by
    rw [scanRelease] at h
    split at h
    · exact absurd h (by simp)
    · split at h
      · rename_i hmatch
        obtain hi : 0 = i := by injection h
        cases hi
        exact ⟨d, by simp, hmatch.1, hmatch.2, by omega⟩
      · rename_i hmatch
        rw [Option.map_eq_some'] at h
        obtain ⟨i', hin, heq⟩ := h
        cases heq
        obtain ⟨c, h1, h2, h3, h4⟩ := scanRelease_sound k rest i' hin
        refine ⟨c, by simpa using h1, h2, h3, ?_⟩
        intro j hj cj hcj
        match j with
        | 0 =>
          simp only [List.getElem?_cons_zero, Option.some.injEq] at hcj
          cases hcj
          exact fun hg => hmatch ⟨hg.1, hg.2⟩
        | j + 1 =>
          exact h4 j (by omega) cj (by simpa using hcj)

theorem scanRelease_hits : ∀ (k : Line) (file : RFile) (i : Nat) (ci : Line),
    file[i]? = some ci →
    (endsNL ci = true ∨ i + 1 < file.length) →
    headChar (stripNL ci) = SIGNAL_CHAR → (stripNL ci).tail = k →
    (∀ j, j < i → ∀ cj, file[j]? = some cj →
        ¬(headChar (stripNL cj) = SIGNAL_CHAR ∧ (stripNL cj).tail = k)) →
    scanRelease k file = some i
  | k, [], i, ci, hget, _, _, _, _ => by simp at hget
  | k, d :: rest, 0, ci, hget, hlen, hsig, hkey, _ => by
    simp only [List.getElem?_cons_zero, Option.some.injEq] at hget
    cases hget
    rw [scanRelease]
    rw [if_neg, if_pos ⟨hsig, hkey⟩]
    rintro ⟨hr, hnl⟩
    rcases hlen with hnl' | hlen'
    · exact hnl hnl'
    · subst hr; simp at hlen'
  | k, d :: rest, i + 1, ci, hget, hlen, hsig, hkey, hpre => by
    simp only [List.getElem?_cons_succ] at hget
    have hrest : i < rest.length := by
      have := List.getElem?_eq_some_iff.mp hget
      exact this.1
    rw [scanRelease]
    rw [if_neg, if_neg]
    · rw [scanRelease_hits k rest i ci hget ?_ hsig hkey ?_]
      · rfl
      · rcases hlen with h | h
        · exact Or.inl h
        · exact Or.inr (by simpa using Nat.lt_of_succ_lt_succ h)
      · intro j hj cj hcj
        exact hpre (j + 1) (by omega) cj (by simpa using hcj)
    · intro hm
      exact hpre 0 (by omega) d (by simp) ⟨hm.1, hm.2⟩
    · rintro ⟨hr, _⟩
      subst hr
      simp at hrest

/-! ### Release exit-code bookkeeping -/

theorem release_keys_code_cases : ∀ (file : RFile) (keys : List Line),
    (release_keys file keys).2 = NO_ERROR ∨ (release_keys file keys).2 = NOT_FOUND
  | _, [] => Or.inl rfl
  | file, k :: ks => by
    cases h : scanRelease k file with
    | none =>
      rcases release_keys_code_cases file ks with h2 | h2 <;>
        · simp only [release_keys, h]
          rw [h2]
          decide
    | some i =>
      rcases release_keys_code_cases (flipAt file i DESIGNAL_CHAR) ks with h2 | h2 <;>
        · simp only [release_keys, h]
          rw [h2]
          decide

theorem release_keys_code_iff : ∀ (file : RFile) (keys : List Line),
    (release_keys file keys).2 = NO_ERROR ↔ all_found file keys = true
  | _, [] => by simp [release_keys, all_found]
  | file, k :: ks => by
    cases h : scanRelease k file with
    | none =>
      simp only [release_keys, all_found, h]
      constructor
      · intro hc
        exfalso
        rcases release_keys_code_cases file ks with h2 | h2 <;> rw [h2] at hc <;>
          exact absurd hc (by decide)
      · intro hc
        cases hc
    | some i =>
      simp only [release_keys, all_found, h]
      have hz : NO_ERROR ||| (release_keys (flipAt file i DESIGNAL_CHAR) ks).2 =
          (release_keys (flipAt file i DESIGNAL_CHAR) ks).2 := Nat.zero_or _
      rw [hz]
      exact release_keys_code_iff (flipAt file i DESIGNAL_CHAR) ks

/-! ### Flipping the first n Reserved records with a given key (C10) -/

theorem spec_flip_zero : ∀ (file : RFile) (k : Line), spec_flip_n file k 0 = file
  | [], _ => rfl
  | c :: rest, k => by simp [spec_flip_n, spec_flip_zero rest k]

theorem headChar_stripNL_cons (a : Char) (x : Line) :
    headChar (stripNL (a :: x)) = a ∨ headChar (stripNL (a :: x)) = '\x00' := by
  unfold stripNL
  split
  · cases x with
    | nil => right; rfl
    | cons b y =>
      left
      rw [List.dropLast_cons_of_ne_nil (by simp)]
      rfl
  · left; rfl

theorem isReservedFor_designal (k x : Line) :
    isReservedFor k (DESIGNAL_CHAR :: x) = false := by
  simp only [isReservedFor, decide_eq_false_iff_not, not_and]
  intro h1
  exfalso
  rcases headChar_stripNL_cons DESIGNAL_CHAR x with h | h <;>
    · rw [h] at h1
      exact absurd h1 (by decide)

theorem endsNL_cons_of_ne_nil (a : Char) {l : Line} (h : l ≠ []) :
    endsNL (a :: l) = endsNL l := by
  unfold endsNL
  cases l with
  | nil => exact absurd rfl h
  | cons b y => rw [List.getLast?_cons_cons]

theorem length_tail_record {c : Line} (h : 2 ≤ c.length) : c.tail ≠ [] := by
  cases c with
  | nil => simp at h
  | cons a l =>
    cases l with
    | nil => simp at h
    | cons b y => simp

theorem release_first_match : ∀ (file : RFile) (k : Line),
    RecordFile file → 0 < count_matching file k →
    ∃ i c, scanRelease k file = some i ∧ file[i]? = some c ∧
      isReservedFor k c = true ∧
      flipAt file i DESIGNAL_CHAR = spec_flip_n file k 1 ∧
      count_matching (flipAt file i DESIGNAL_CHAR) k = count_matching file k - 1 ∧
      RecordFile (flipAt file i DESIGNAL_CHAR)
  | [], k, _, hcount => by simp [count_matching] at hcount
  | c :: rest, k, hwf, hcount => by
    obtain ⟨hclen, hcnl⟩ := hwf c (List.mem_cons_self c rest)
    have hwfrest : RecordFile rest := fun d hd => hwf d (List.mem_cons_of_mem c hd)
    have hctail : c.tail ≠ [] := length_tail_record hclen
    cases hm : isReservedFor k c with
    | true =>
      have hfeq : flipAt (c :: rest) 0 DESIGNAL_CHAR = (DESIGNAL_CHAR :: c.tail) :: rest := rfl
      refine ⟨0, c, ?_, by simp, hm, ?_, ?_, ?_⟩
      · rw [scanRelease, if_neg (by rintro ⟨_, hnl⟩; exact hnl hcnl),
          if_pos (of_decide_eq_true hm)]
      · rw [hfeq, spec_flip_n, if_pos ⟨by omega, hm⟩]
        simp [spec_flip_zero]
      · rw [hfeq]
        have e1 : count_matching ((DESIGNAL_CHAR :: c.tail) :: rest) k
            = count_matching rest k := by
          simp [count_matching, List.countP_cons, isReservedFor_designal]
        have e2 : count_matching (c :: rest) k = count_matching rest k + 1 := by
          simp [count_matching, List.countP_cons, hm]
        rw [e1, e2]
        omega
      · rw [hfeq]
        intro d hd
        rcases List.mem_cons.mp hd with hd | hd
        · subst hd
          constructor
          · have hlt : c.length = c.tail.length + 1 := by
              cases c with
              | nil => simp at hclen
              | cons a l => simp
            simp only [List.length_cons]
            omega
          · rw [endsNL_cons_of_ne_nil DESIGNAL_CHAR hctail]
            cases c with
            | nil => simp at hclen
            | cons a l =>
              rw [show (a :: l).tail = l from rfl]
              rw [← endsNL_cons_of_ne_nil a (l := l) (by rintro rfl; simp at hclen)]
              exact hcnl
        · exact hwf d (List.mem_cons_of_mem c hd)
    | false =>
      have hcount' : 0 < count_matching rest k := by
        have hc := List.countP_cons (isReservedFor k) c rest
        simp only [count_matching] at hcount ⊢
        rw [hc, if_neg (by rw [hm]; simp)] at hcount
        simpa using hcount
      obtain ⟨i, d, hscan, hget, hres, hflip, hcnt, hwf'⟩ :=
        release_first_match rest k hwfrest hcount'
      have hfeq : flipAt (c :: rest) (i + 1) DESIGNAL_CHAR =
          c :: flipAt rest i DESIGNAL_CHAR := rfl
      refine ⟨i + 1, d, ?_, by simpa using hget, hres, ?_, ?_, ?_⟩
      · rw [scanRelease, if_neg (by rintro ⟨_, hnl⟩; exact hnl hcnl),
          if_neg (fun hp => by
            rw [show isReservedFor k c = true from decide_eq_true hp] at hm; cases hm),
          hscan]
        rfl
      · rw [hfeq, spec_flip_n, if_neg (by rw [hm]; simp)]
        exact congrArg (c :: ·) hflip
      · rw [hfeq]
        have e1 : count_matching (c :: flipAt rest i DESIGNAL_CHAR) k
            = count_matching (flipAt rest i DESIGNAL_CHAR) k := by
          simp [count_matching, List.countP_cons, hm]
        have e2 : count_matching (c :: rest) k = count_matching rest k := by
          simp [count_matching, List.countP_cons, hm]
        rw [e1, e2, hcnt]
      · rw [hfeq]
        intro d' hd'
        rcases List.mem_cons.mp hd' with hd' | hd'
        · rw [hd']
          exact hwf c (List.mem_cons_self c rest)
        · exact hwf' d' hd'

theorem spec_flip_succ : ∀ (file : RFile) (k : Line) (n : Nat),
    spec_flip_n file k (n + 1) = spec_flip_n (spec_flip_n file k 1) k n
  | [], _, _ => rfl
  | c :: rest, k, n => by
    cases hm : isReservedFor k c with
    | true =>
      rw [spec_flip_n, if_pos ⟨by omega, hm⟩]
      rw [show spec_flip_n (c :: rest) k 1 = (DESIGNAL_CHAR :: c.tail) :: rest by
        rw [spec_flip_n, if_pos ⟨by omega, hm⟩]; simp [spec_flip_zero]]
      have h2 : spec_flip_n ((DESIGNAL_CHAR :: c.tail) :: rest) k n =
          (DESIGNAL_CHAR :: c.tail) :: spec_flip_n rest k n := by
        rw [spec_flip_n, if_neg (by rw [isReservedFor_designal]; simp)]
      rw [h2]
      simp
    | false =>
      rw [spec_flip_n, if_neg (by rw [hm]; simp)]
      rw [show spec_flip_n (c :: rest) k 1 = c :: spec_flip_n rest k 1 by
        rw [spec_flip_n, if_neg (by rw [hm]; simp)]]
      have h2 : spec_flip_n (c :: spec_flip_n rest k 1) k n =
          c :: spec_flip_n (spec_flip_n rest k 1) k n := by
        rw [spec_flip_n, if_neg (by rw [hm]; simp)]
      rw [h2, spec_flip_succ rest k n]

theorem release_replicate : ∀ (n : Nat) (file : RFile) (k : Line),
    RecordFile file → n ≤ count_matching file k →
    release_keys file (List.replicate n k) = (spec_flip_n file k n, NO_ERROR)
  | 0, file, k, _, _ => by simp [release_keys, spec_flip_zero]
  | n + 1, file, k, hwf, hcount => by
    obtain ⟨i, c, hscan, hget, hres, hflip, hcnt, hwf'⟩ :=
      release_first_match file k hwf (by omega)
    rw [List.replicate_succ, release_keys, hscan]
    show ((release_keys (flipAt file i DESIGNAL_CHAR) (List.replicate n k)).1,
        NO_ERROR ||| (release_keys (flipAt file i DESIGNAL_CHAR) (List.replicate n k)).2) =
      (spec_flip_n file k (n + 1), NO_ERROR)
    rw [release_replicate n (flipAt file i DESIGNAL_CHAR) k hwf' (by omega)]
    rw [hflip, ← spec_flip_succ]
    simp [NO_ERROR]

/-! ### Unterminated final lines are invisible to both scans (C9) -/

theorem scanObtain_skips_unterminated : ∀ (cs : RFile) (c : Line),
    endsNL c = false → ∀ d, scanObtain (cs ++ [c]) ≠ some (cs.length, d)
  | [], c, h, d => by
    simp only [List.nil_append, List.length_nil]
    rw [scanObtain, if_pos ⟨rfl, by simp [h]⟩]
    simp
  | e :: cs, c, h, d => by
    rw [List.cons_append, scanObtain]
    split
    · simp
    · split
      · intro hcon
        rw [Option.map_eq_some'] at hcon
        obtain ⟨⟨i', c'⟩, hin, heq⟩ := hcon
        injection heq with h1 h2
        have hi : i' = cs.length := by simpa using h1
        subst hi; subst h2
        exact scanObtain_skips_unterminated cs c h c' hin
      · intro hcon
        injection hcon with h1
        injection h1 with h2 h3
        simp at h2

theorem scanRelease_skips_unterminated : ∀ (k : Line) (cs : RFile) (c : Line),
    endsNL c = false → scanRelease k (cs ++ [c]) ≠ some cs.length
  | k, [], c, h => by
    simp only [List.nil_append, List.length_nil]
    rw [scanRelease, if_pos ⟨rfl, by simp [h]⟩]
    simp
  | k, e :: cs, c, h => by
    rw [List.cons_append, scanRelease]
    split
    · simp
    · split
      · intro hcon
        injection hcon with h1
        simp at h1
      · intro hcon
        rw [Option.map_eq_some'] at hcon
        obtain ⟨i', hin, heq⟩ := hcon
        have hi : i' = cs.length := by simpa using heq
        subst hi
        exact scanRelease_skips_unterminated k cs c h hin

theorem scanObtain_unterminated_none : ∀ (cs : RFile) (c : Line),
    endsNL c = false → (∀ cj ∈ cs, headChar cj = SIGNAL_CHAR) →
    scanObtain (cs ++ [c]) = none
  | [], c, h, _ => by
    rw [List.nil_append, scanObtain, if_pos ⟨rfl, by simp [h]⟩]
  | e :: cs, c, h, hall => by
    rw [List.cons_append, scanObtain,
      if_neg (by rintro ⟨habs, _⟩; exact absurd habs (by simp)),
      if_pos (hall e (List.mem_cons_self e cs)),
      scanObtain_unterminated_none cs c h
        (fun cj hcj => hall cj (List.mem_cons_of_mem e hcj))]
    rfl

theorem scanRelease_unterminated_none : ∀ (k : Line) (cs : RFile) (c : Line),
    endsNL c = false →
    (∀ cj ∈ cs, ¬(headChar (stripNL cj) = SIGNAL_CHAR ∧ (stripNL cj).tail = k)) →
    scanRelease k (cs ++ [c]) = none
  | k, [], c, h, _ => by
    rw [List.nil_append, scanRelease, if_pos ⟨rfl, by simp [h]⟩]
  | k, e :: cs, c, h, hall => by
    rw [List.cons_append, scanRelease,
      if_neg (by rintro ⟨habs, _⟩; exact absurd habs (by simp)),
      if_neg (hall e (List.mem_cons_self e cs)),
      scanRelease_unterminated_none k cs c h
        (fun cj hcj => hall cj (List.mem_cons_of_mem e hcj))]
    rfl

/-! ### The obtain-then-release round trip (C6) -/

theorem endsNL_tail {c : Line} (h2 : 2 ≤ c.length) (hnl : endsNL c = true) :
    endsNL c.tail = true := by
  cases c with
  | nil => simp at h2
  | cons a l =>
    rw [show (a :: l).tail = l from rfl]
    rw [← endsNL_cons_of_ne_nil a (l := l) (by rintro rfl; simp at h2)]
    exact hnl

theorem record_head_cons {c : Line} (h2 : 2 ≤ c.length) :
    c = headChar c :: c.tail := by
  cases c with
  | nil => simp at h2
  | cons a l => rfl

theorem stripNL_tail_comm {c : Line} (h2 : 2 ≤ c.length) (hnl : endsNL c = true) :
    stripNL c.tail = (stripNL c).tail := by
  have h1 : endsNL c.tail = true := endsNL_tail h2 hnl
  unfold stripNL
  rw [if_pos h1, if_pos hnl]
  cases c with
  | nil => simp at h2
  | cons a l =>
    rw [show (a :: l).tail = l from rfl,
      List.dropLast_cons_of_ne_nil (by rintro rfl; simp at h2)]
    rfl

theorem cycle_restores (file : RFile) (p i : Nat) (c : Line)
    (hwf : RecordFile file)
    (hscan : scanObtain file = some (i, c))
    (hfree : headChar c = DESIGNAL_CHAR)
    (hdist : ∀ j cj, j < i → file[j]? = some cj → chunkKey cj ≠ chunkKey c) :
    obtain_release_cycle file p = file := by
  obtain ⟨hget, _, _, _⟩ := scanObtain_sound file i c hscan
  have hcmem : c ∈ file := by
    obtain ⟨hlt, he⟩ := List.getElem?_eq_some_iff.mp hget
    exact he ▸ List.getElem_mem hlt
  obtain ⟨hc2, hcnl⟩ := hwf c hcmem
  have hilt : i < file.length := (List.getElem?_eq_some_iff.mp hget).1
  have hctail : c.tail ≠ [] := length_tail_record hc2
  have htnl : endsNL c.tail = true := endsNL_tail hc2 hcnl
  have hkey : stripNL c.tail = (stripNL c).tail := stripNL_tail_comm hc2 hcnl
  have hflipeq : flipAt file i SIGNAL_CHAR = file.set i (SIGNAL_CHAR :: c.tail) := by
    unfold flipAt
    rw [List.getD_eq_getElem?_getD, hget]
    rfl
  have hstrip : stripNL (SIGNAL_CHAR :: c.tail) = SIGNAL_CHAR :: c.tail.dropLast := by
    unfold stripNL
    rw [if_pos (by rw [endsNL_cons_of_ne_nil SIGNAL_CHAR hctail]; exact htnl)]
    exact List.dropLast_cons_of_ne_nil hctail
  have hrel : scanRelease (stripNL c.tail) (file.set i (SIGNAL_CHAR :: c.tail)) =
      some i := by
    apply scanRelease_hits (stripNL c.tail) _ i (SIGNAL_CHAR :: c.tail)
    · exact List.getElem?_set_self hilt
    · exact Or.inl (by rw [endsNL_cons_of_ne_nil SIGNAL_CHAR hctail]; exact htnl)
    · rw [hstrip]; rfl
    · rw [hstrip]
      show c.tail.dropLast = stripNL c.tail
      unfold stripNL
      rw [if_pos htnl]
    · intro j hj cj hcj
      rw [List.getElem?_set_ne (by omega)] at hcj
      rintro ⟨_, htl⟩
      exact hdist j cj hj hcj (by unfold chunkKey; rw [htl]; exact hkey)
  have hoa := obtain_avail_success hscan 0 p
  simp only [obtain_release_cycle, hoa]
  show (release_keys (flipAt file i SIGNAL_CHAR) [stripNL c.tail]).1 = file
  rw [hflipeq, release_keys, hrel]
  show flipAt (file.set i (SIGNAL_CHAR :: c.tail)) i DESIGNAL_CHAR = file
  unfold flipAt
  rw [List.getD_eq_getElem?_getD, List.getElem?_set_self hilt]
  show (file.set i (SIGNAL_CHAR :: c.tail)).set i (DESIGNAL_CHAR :: c.tail) = file
  rw [List.set_set]
  rw [show DESIGNAL_CHAR :: c.tail = c from by rw [← hfree]; exact (record_head_cons hc2).symm]
  exact list_set_self file i c hget

/-! ### The outer multi-key obtain loop -/

theorem obtain_go_nofree {file : RFile} (h : scanObtain file = none)
    (maxrep p n : Nat) :
    obtain_go maxrep p file (n + 1) =
      { code := TIME_OUT, file := file, outputs := [], attempts := [maxrep + 1] } := by
  rw [obtain_go, obtain_avail_nofree h maxrep p]
  simp [TIME_OUT, NO_ERROR]

theorem obtain_go_success {file : RFile} {i : Nat} {line : Line}
    (h : scanObtain file = some (i, line)) (maxrep p n : Nat) :
    obtain_go maxrep p file (n + 1) =
      { code := (obtain_go maxrep p (flipAt file i SIGNAL_CHAR) n).code
        file := (obtain_go maxrep p (flipAt file i SIGNAL_CHAR) n).file
        outputs := line.tail :: (obtain_go maxrep p (flipAt file i SIGNAL_CHAR) n).outputs
        attempts := 1 :: (obtain_go maxrep p (flipAt file i SIGNAL_CHAR) n).attempts } := by
  rw [obtain_go, obtain_avail_success h]
  simp

/-! ## The claims -/

/-- Claim C1, counterexample: on a file with zero Free records and
`timeout = 3`, `pollInterval = 2`, the obtain loop makes 3 scan attempts,
not the 2 the claim states (`max_retries = 2`, and the loop retries while
`retry_count < max_retries`, giving `max_retries + 1` scans). -/
theorem C1_counterexample :
    (obtain_avail [['!', 'a', '\n']] (max_retries 3 2) 2).attempts = 3 ∧
    (obtain_avail [['!', 'a', '\n']] (max_retries 3 2) 2).attempts ≠ 2 := by
  decide

/-- Claim C1 (amended): with `timeout = 3`, `pollInterval = 2` and a file
with zero Free records, obtain makes exactly 3 scan attempts (at t = 0,
t = 2 and t = 4, having slept 4 seconds in total) before failing with
TimeOut; in general, for finite nonzero timeout the number of scan
attempts is bounded by `ceil(timeout / pollInterval) + 1`, so obtain
never loops indefinitely while the file stays openable. -/
theorem C1_timeout_attempts :
    (obtain_avail [['!', 'a', '\n']] (max_retries 3 2) 2 =
      { code := TIME_OUT, file := [['!', 'a', '\n']], output := none
        attempts := 3, slept := 4 }) ∧
    (∀ (file : RFile) (timeout polltime : Nat), timeout ≠ 0 →
      (obtain_avail file (max_retries timeout polltime) polltime).attempts ≤
        (timeout + polltime - 1) / polltime + 1) := by
  constructor
  · decide
  · intro file timeout polltime ht
    rw [max_retries, if_neg ht]
    exact obtain_avail_attempts_le file ((timeout + polltime - 1) / polltime) polltime

/-- Witness for C1: the bound instantiated at a concrete file and
`timeout = 3`, `pollInterval = 2`. -/
theorem C1_timeout_attempts_witness :
    (obtain_avail [['!', 'a', '\n']] (max_retries 3 2) 2).attempts ≤
      (3 + 2 - 1) / 2 + 1 :=
  C1_timeout_attempts.2 [['!', 'a', '\n']] 3 2 (by decide)

/-- Claim C2, counterexample: with `timeout = 0` the retry budget is
`INT_MAX` (the code reads `timeout ? ceil : INT_MAX`, so 0 means "no
timeout"), hence an attempt that finds no Free record does not fail with
TimeOut: the loop runs `INT_MAX + 1 = 2147483648` scan attempts, not 1. -/
theorem C2_counterexample :
    (obtain_avail [['!', 'a', '\n']] (max_retries 0 2) 2).attempts = 2147483648 ∧
    (obtain_avail [['!', 'a', '\n']] (max_retries 0 2) 2).attempts ≠ 1 := by
  have h := obtain_avail_nofree
    (show scanObtain [['!', 'a', '\n']] = none by decide) (max_retries 0 2) 2
  rw [h]
  constructor
  · show max_retries 0 2 + 1 = 2147483648
    decide
  · show max_retries 0 2 + 1 ≠ 1
    decide

/-- Claim C2 (amended): requesting 3 keys on a file with exactly 1 Free
record and `timeout = 0` reserves exactly 1 key, which stays Reserved
(no rollback), and the overall result is TimeOut — but `timeout = 0`
means an `INT_MAX` retry budget, so the TimeOut comes only after
`INT_MAX + 1 = 2147483648` scan attempts for the second key, not from
the first attempt that finds no Free record. -/
theorem C2_partial_obtain :
    obtain_resource [[' ', 'a', '\n']] 3 0 2 =
      { code := TIME_OUT, file := [['!', 'a', '\n']]
        outputs := [['a', '\n']], attempts := [1, 2147483648] } := by
  have h1 : scanObtain [[' ', 'a', '\n']] = some (0, [' ', 'a', '\n']) := by decide
  have h2 : scanObtain [['!', 'a', '\n']] = none := by decide
  have hf : flipAt [[' ', 'a', '\n']] 0 SIGNAL_CHAR = [['!', 'a', '\n']] := by decide
  have hm : max_retries 0 2 + 1 = 2147483648 := by decide
  unfold obtain_resource
  rw [show (3 : Nat) = 2 + 1 from rfl, obtain_go_success h1, hf,
    show (2 : Nat) = 1 + 1 from rfl, obtain_go_nofree h2, hm]
  rfl

/-- Claim C3 (code bug): when `fopen` fails on the very first attempt the
loop does exit with FileNotOpen (the `repeat` flag is still false), but
when `fopen` fails on a later polling attempt the `repeat` flag — never
reset by the failure branch — is still true, so the loop does not
terminate with FileNotOpen: it goes straight back to `fopen` (no sleep,
no retry-budget accounting) and busy-loops for as long as the file stays
unopenable (here: still running after 100 iterations). -/
theorem C3_open_failure_divergence :
    (obtain_iter (fun _ => false) 2 (max_retries 3 2) (obtain_init [['!', 'a', '\n']]) =
      ObtainStep.done FILE_NOT_OPEN
        { file := [['!', 'a', '\n']], rep := 0, repeatFlag := false
          attempt := 1, slept := 0 } none) ∧
    (obtain_iter (fun k => k == 0) 2 (max_retries 3 2)
        { file := [['!', 'a', '\n']], rep := 1, repeatFlag := true
          attempt := 1, slept := 2 } =
      ObtainStep.next
        { file := [['!', 'a', '\n']], rep := 1, repeatFlag := true
          attempt := 2, slept := 2 }) ∧
    (obtain_run (fun k => k == 0) 2 (max_retries 3 2) 100
        (obtain_init [['!', 'a', '\n']]) = none) := by
  decide

/-- Claim C4: for release with `delay = 0`, a key with no matching
Reserved record contributes NotFound but the remaining keys are still
processed, and the call's exit code is the bitwise combination of the
per-key outcomes — NoError iff every key was found (sequentially), and
NotFound iff some key was not. -/
theorem C4_release_aggregation :
    ∀ (file : RFile) (keys : List Line),
      ((release_keys file keys).2 = NO_ERROR ↔ all_found file keys = true) ∧
      ((release_keys file keys).2 = NOT_FOUND ↔ all_found file keys = false) ∧
      (∀ k ks, keys = k :: ks → scanRelease k file = none →
        release_keys file keys =
          ((release_keys file ks).1, NOT_FOUND ||| (release_keys file ks).2)) := by
  intro file keys
  refine ⟨release_keys_code_iff file keys, ?_, ?_⟩
  · rcases release_keys_code_cases file keys with h0 | h0
    · have htrue := (release_keys_code_iff file keys).mp h0
      rw [h0, htrue]
      decide
    · have hfalse : all_found file keys = false := by
        cases hb : all_found file keys with
        | true =>
          exact absurd ((release_keys_code_iff file keys).mpr hb)
            (by rw [h0]; decide)
        | false => rfl
      rw [h0, hfalse]
      decide
  · intro k ks hkeq hscan
    subst hkeq
    rw [release_keys, hscan]

/-- Witness for C4: a key absent from an empty file is NotFound and the
remaining (empty) key list is still processed. -/
theorem C4_release_aggregation_witness :
    release_keys [] [['a']] =
      ((release_keys [] []).1, NOT_FOUND ||| (release_keys [] []).2) :=
  (C4_release_aggregation [] [['a']]).2.2 ['a'] [] rfl (by decide)

/-- Claim C5: if the precondition `fopen` fails, release returns
FileNotOpen before any delay or detachment, whatever the delay; if the
file is openable and `delay > 0`, the original caller gets NoError
immediately upon detachment, independent of whether the deferred scan
can even open the file, and of the file content and keys. -/
theorem C5_release_precheck_detach :
    (∀ (openMain : Bool) (file : RFile) (keys : List Line) (delay : Nat),
      release_resource false openMain file keys delay =
        { caller := FILE_NOT_OPEN, callerWait := 0, detached := false
          file := file, deferredCode := none }) ∧
    (∀ (openMain : Bool) (file : RFile) (keys : List Line) (delay : Nat),
      0 < delay →
      (release_resource true openMain file keys delay).caller = NO_ERROR ∧
      (release_resource true openMain file keys delay).callerWait = 0 ∧
      (release_resource true openMain file keys delay).detached = true) := by
  constructor
  · intro om file keys delay
    rfl
  · intro om file keys delay hd
    unfold release_resource
    rw [if_neg (by simp), if_pos hd]
    exact ⟨rfl, rfl, rfl⟩

/-- Witness for C5: `delay = 1` on an empty file whose deferred open will
fail — the caller still sees NoError with no wait. -/
theorem C5_release_precheck_detach_witness :
    (release_resource true false [] [] 1).caller = NO_ERROR ∧
    (release_resource true false [] [] 1).callerWait = 0 ∧
    (release_resource true false [] [] 1).detached = true :=
  C5_release_precheck_detach.2 false [] [] 1 (by decide)

/-- Claim C6, counterexample: with a Reserved duplicate of the key ahead
of the Free record, obtain flips record 1 but the release flips record 0
(the first Reserved record with that key text), so one obtain/release
cycle does not restore the file. -/
theorem C6_counterexample :
    obtain_release_cycle [['!', 'a', '\n'], [' ', 'a', '\n']] 2 ≠
      [['!', 'a', '\n'], [' ', 'a', '\n']] := by
  decide

/-- Claim C6 (amended): provided no record before the one obtain selects
carries the same key text (e.g. when key texts are pairwise distinct) and
the file is made of well-formed newline-terminated records whose selected
record is genuinely Free (leading `' '`), obtaining a key and then
releasing it with `delay = 0` restores the file exactly, and so does
repeating the cycle any number of times.  Without that proviso only the
multiset of records is preserved, as the counterexample shows. -/
theorem C6_cycle_identity (file : RFile) (p i : Nat) (c : Line)
    (hwf : RecordFile file)
    (hscan : scanObtain file = some (i, c))
    (hfree : headChar c = DESIGNAL_CHAR)
    (hdist : ∀ j cj, j < i → file[j]? = some cj → chunkKey cj ≠ chunkKey c) :
    obtain_release_cycle file p = file ∧
    ∀ n, (fun f => obtain_release_cycle f p)^[n] file = file := by
  have h := cycle_restores file p i c hwf hscan hfree hdist
  exact ⟨h, fun n => Function.iterate_fixed h n⟩

/-- Witness for C6: a two-record file with distinct keys round-trips. -/
theorem C6_cycle_identity_witness :
    obtain_release_cycle [[' ', 'a', '\n'], [' ', 'b', '\n']] 2 =
      [[' ', 'a', '\n'], [' ', 'b', '\n']] :=
  (C6_cycle_identity [[' ', 'a', '\n'], [' ', 'b', '\n']] 2 0 [' ', 'a', '\n']
    (by decide) (by decide) (by decide)
    (fun j cj hj _ => absurd hj (Nat.not_lt_zero j))).1

/-- Claim C7, counterexample: a record whose first character is neither
`' '` nor `'!'` IS selected by obtain's scan (the loop only skips lines
starting with `'!'`), contradicting the claim that neither scan ever
matches it. -/
theorem C7_counterexample :
    scanObtain [['x', 'k', '\n']] = some (0, ['x', 'k', '\n']) ∧
    headChar ['x', 'k', '\n'] ≠ DESIGNAL_CHAR ∧
    headChar ['x', 'k', '\n'] ≠ SIGNAL_CHAR := by
  decide

/-- Claim C7 (amended): obtain's scan treats any record whose first
character differs from `'!'` as available — it selects the first such
record, a corrupted leading character included — while release's scan
only ever selects records whose (stripped) first character is exactly
`'!'`; neither operation crashes on a corrupted record (both scans are
total). -/
theorem C7_corrupt_status :
    (∀ (file : RFile) (i : Nat) (c : Line), scanObtain file = some (i, c) →
      headChar c ≠ SIGNAL_CHAR ∧
      ∀ j, j < i → ∃ cj, file[j]? = some cj ∧ headChar cj = SIGNAL_CHAR) ∧
    (∀ (c : Line) (rest : RFile), headChar c ≠ SIGNAL_CHAR →
      (endsNL c = true ∨ rest ≠ []) → scanObtain (c :: rest) = some (0, c)) ∧
    (∀ (k : Line) (file : RFile) (i : Nat), scanRelease k file = some i →
      ∃ c, file[i]? = some c ∧ headChar (stripNL c) = SIGNAL_CHAR) := by
  refine ⟨?_, ?_, ?_⟩
  · intro file i c h
    obtain ⟨_, h2, _, h4⟩ := scanObtain_sound file i c h
    exact ⟨h2, h4⟩
  · intro c rest hc hor
    rw [scanObtain]
    rw [if_neg (by
      rintro ⟨hr, hnl⟩
      rcases hor with h | h
      · exact hnl h
      · exact h hr)]
    rw [if_neg hc]
  · intro k file i h
    obtain ⟨c, h1, h2, _, _⟩ := scanRelease_sound k file i h
    exact ⟨c, h1, h2⟩

/-- Witness for C7: the corrupted record `"xk\n"` is selected by obtain
precisely because its head is not `'!'`. -/
theorem C7_corrupt_status_witness :
    headChar ['x', 'k', '\n'] ≠ SIGNAL_CHAR ∧
    ∀ j, j < 0 →
      ∃ cj, ([['x', 'k', '\n']] : RFile)[j]? = some cj ∧ headChar cj = SIGNAL_CHAR :=
  C7_corrupt_status.1 [['x', 'k', '\n']] 0 ['x', 'k', '\n'] (by decide)

/-- Claim C8 (code bug): `append_resource_file` does not terminate when
the file cannot be opened — the `while (1)` loop's failure branch sets
`exitcode = FILE_NOT_OPEN` but has no `break`, so it silently re-runs
`fopen` forever and the FileNotOpen exit is dead code (the run is still
going after any number of iterations).  When the file opens it does
append one Free record per key, in order, and returns NoError. -/
theorem C8_append_retry_loop :
    (∀ (file : RFile) (keys : List Line) (fuel attempt : Nat),
      append_loop (fun _ => false) file keys fuel attempt = none) ∧
    (∀ (file : RFile) (keys : List Line) (fuel attempt : Nat),
      append_loop (fun _ => true) file keys (fuel + 1) attempt =
        some (NO_ERROR, file ++ keys.map mk_record)) := by
  constructor
  · intro file keys fuel
    induction fuel with
    | zero => intro attempt; rfl
    | succ n ih => intro attempt; exact ih (attempt + 1)
  · intro file keys fuel attempt
    rfl

/-- Claim C9: a final record without a trailing newline sets `feof`
during the `fgets` that reads it, so neither scan ever matches it: a
Free final record without newline can never be obtained (with an
all-Reserved prefix, obtain sees no Free record at all), and a Reserved
final record without newline can never be released (the release of its
key reports NotFound). -/
theorem C9_unterminated_final_line :
    (∀ (cs : RFile) (c : Line), endsNL c = false →
      (∀ d, scanObtain (cs ++ [c]) ≠ some (cs.length, d)) ∧
      ((∀ cj ∈ cs, headChar cj = SIGNAL_CHAR) → scanObtain (cs ++ [c]) = none)) ∧
    (∀ (k : Line) (cs : RFile) (c : Line), endsNL c = false →
      scanRelease k (cs ++ [c]) ≠ some cs.length ∧
      ((∀ cj ∈ cs, ¬(headChar (stripNL cj) = SIGNAL_CHAR ∧ (stripNL cj).tail = k)) →
        (release_keys (cs ++ [c]) [k]).2 = NOT_FOUND)) := by
  constructor
  · intro cs c h
    exact ⟨fun d => scanObtain_skips_unterminated cs c h d,
      fun hall => scanObtain_unterminated_none cs c h hall⟩
  · intro k cs c h
    refine ⟨scanRelease_skips_unterminated k cs c h, fun hall => ?_⟩
    rw [release_keys, scanRelease_unterminated_none k cs c h hall]
    show NOT_FOUND ||| NO_ERROR = NOT_FOUND
    decide

/-- Witness for C9: a Free-looking final record without newline behind a
Reserved record — obtain finds nothing. -/
theorem C9_unterminated_final_line_witness :
    scanObtain ([['!', 'b', '\n']] ++ [[' ', 'a']]) = none :=
  (C9_unterminated_final_line.1 [['!', 'b', '\n']] [' ', 'a'] (by decide)).2 (by decide)

/-- Claim C10: in one `delay = 0` release call whose key list is the same
key text `n` times, against a well-formed file holding at least `n`
Reserved records with that key text, each scan restarts from the file
start and skips non-Reserved records, so the call flips exactly the
first `n` matching Reserved records (in file order) to Free and returns
NoError. -/
theorem C10_repeated_release :
    ∀ (n : Nat) (file : RFile) (k : Line),
      RecordFile file → n ≤ count_matching file k →
      release_keys file (List.replicate n k) = (spec_flip_n file k n, NO_ERROR) :=
  release_replicate

/-- Witness for C10: two copies of key `a` against a file with two
Reserved `a` records (and a Reserved `b` between them). -/
theorem C10_repeated_release_witness :
    release_keys [['!', 'a', '\n'], ['!', 'b', '\n'], ['!', 'a', '\n']]
        (List.replicate 2 ['a']) =
      (spec_flip_n [['!', 'a', '\n'], ['!', 'b', '\n'], ['!', 'a', '\n']] ['a'] 2,
        NO_ERROR) :=
  C10_repeated_release 2 [['!', 'a', '\n'], ['!', 'b', '\n'], ['!', 'a', '\n']] ['a']
    (by decide) (by decide)

end MResource
